import Mathlib

/-!
Verification of the generative-art core

A shallow embedding of the Go generative-art program: the FNV-style seed
hash, the expression-tree grammar and its evaluation over the reals, the
random tree builder, the per-pixel rasterization pipeline, the row-band
worker partition, the colour-variance diversity metric, and the retry /
warning quality gate.  Machine `uint32` arithmetic is modelled with `Nat`
and explicit `% 2^32`; `float64` values are modelled as real numbers and
the `uint8(…)` conversion as truncation toward zero.
-/

namespace ArtGen

/-! ## Seed hashing

The Go source iterates `for _, c := range seed`, which decodes the string
as UTF-8 and yields one Unicode code point (rune) per step.  A Go string
is therefore modelled as the list of its runes (natural numbers).  Each
step multiplies by the FNV prime with 32-bit wraparound and xors in the
rune, as in the source: `h = (h * 16777619) ^ uint32(c)`. -/

def hashStep (h c : ℕ) : ℕ := ((h * 16777619) % 2 ^ 32) ^^^ (c % 2 ^ 32)

/-- The hash as the source computes it: a fold of `hashStep` over the
string's runes, starting from the FNV offset basis 2166136261. -/
def hash (runes : List ℕ) : ℕ := runes.foldl hashStep 2166136261

/-- The byte-level FNV-1a-style fold the spec describes: the same step
function folded over the UTF-8 bytes of the string. -/
def hashBytes (bytes : List ℕ) : ℕ := bytes.foldl hashStep 2166136261

/-- UTF-8 encoding of a single code point (the encoding Go strings use). -/
def utf8Encode (c : ℕ) : List ℕ :=
  if c < 0x80 then [c]
  else if c < 0x800 then [0xC0 + c / 0x40, 0x80 + c % 0x40]
  else if c < 0x10000 then
    [0xE0 + c / 0x1000, 0x80 + (c / 0x40) % 0x40, 0x80 + c % 0x40]
  else
    [0xF0 + c / 0x40000, 0x80 + (c / 0x1000) % 0x40,
     0x80 + (c / 0x40) % 0x40, 0x80 + c % 0x40]

/-- The UTF-8 byte sequence of a string given as a list of runes. -/
def utf8 (runes : List ℕ) : List ℕ := runes.flatMap utf8Encode

theorem hash_eq_hashBytes_of_ascii_aux (s : List ℕ) :
    ∀ init : ℕ, (∀ c ∈ s, c < 128) →
      s.foldl hashStep init = (utf8 s).foldl hashStep init := by
  induction s with
  | nil => intro init _; rfl
  | cons c rest ih =>
    intro init h
    have hc : c < 128 := h c (List.mem_cons_self c rest)
    have hrest : ∀ d ∈ rest, d < 128 := fun d hd => h d (List.mem_cons_of_mem c hd)
    have henc : utf8Encode c = [c] := by
      unfold utf8Encode
      rw [if_pos (by omega)]
    show rest.foldl hashStep (hashStep init c) = _
    rw [ih (hashStep init c) hrest]
    unfold utf8
    rw [List.flatMap_cons, henc]
    rfl

/-- C1: the claim states that for every seed string, `hash` equals the
FNV-1a fold over the UTF-8 *bytes* of the string.  The source folds over
*runes* (Go `range` over a string yields code points), so the two differ
on any non-ASCII seed: the rune U+00E9 ("é", one fold step with 233)
versus its two UTF-8 bytes 195, 169 (two fold steps). -/
theorem hash_ne_byte_fold_on_nonascii : hash [233] ≠ hashBytes (utf8 [233]) := by
  decide

/-- C1 (amended): `hash` is the FNV-1a-style fold over the *runes* of the
seed string; it coincides with the byte-level fold exactly on ASCII-only
seeds, where each rune is its own single UTF-8 byte. -/
theorem hash_eq_byte_fold_of_ascii (s : List ℕ) (h : ∀ c ∈ s, c < 128) :
    hash s = hashBytes (utf8 s) :=
  hash_eq_hashBytes_of_ascii_aux s 2166136261 h

theorem hash_eq_byte_fold_of_ascii_witness :
    hash [104, 105] = hashBytes (utf8 [104, 105]) :=
  hash_eq_byte_fold_of_ascii [104, 105] (by decide)

/-! ## Quality gate

`CreateImage` runs up to 3 attempts; after rasterizing, it computes the
variance and `break`s out of the loop as soon as `variance > 30.0`.
After the loop it prints the low-variance warning iff the final variance
is `<= 50.0`.  The gate is modelled as a function of the sequence of
per-attempt variance values (one value per attempt the loop would run),
with fuel counting the remaining loop iterations. -/

def gateLoopAux (vs : ℕ → ℚ) : ℕ → ℕ → ℚ → ℚ
  | 0, _, v => v
  | fuel + 1, attempt, _ =>
    let v := vs attempt
    if 30 < v then v else gateLoopAux vs fuel (attempt + 1) v

/-- The variance of the image `CreateImage` returns: the loop runs for
attempts 0,1,2 (the Go zero value 0 initializes `variance`), stopping
early at the first attempt whose variance exceeds 30. -/
def finalVariance (vs : ℕ → ℚ) : ℚ := gateLoopAux vs 3 0 0

/-- Whether the `Low variance` warning after the loop fires:
`variance <= 50.0` on the final variance. -/
def lowVarianceWarning (vs : ℕ → ℚ) : Bool := finalVariance vs ≤ 50

/-- C3 (counterexample): a run whose first attempt has variance 40 is
accepted immediately (40 > 30 breaks the loop on attempt 0), yet the
warning fires (40 ≤ 50) — contradicting the claim that the warning never
fires for an image accepted at a metric above 30. -/
theorem warning_fires_on_accepted_image :
    30 < (fun _ : ℕ => (40 : ℚ)) 0 ∧
      finalVariance (fun _ => 40) = 40 ∧
      lowVarianceWarning (fun _ => 40) = true := by
  refine ⟨by norm_num, ?_, ?_⟩
  · simp [finalVariance, gateLoopAux]
  · simp only [lowVarianceWarning, finalVariance, gateLoopAux, decide_eq_true_eq]
    norm_num

/-- C3 (amended): the gate accepts and stops retrying at the first
attempt whose metric exceeds 30 (falling back to the third attempt's
value when none does), and the warning fires iff the *final* metric is
at most 50 — on the degraded path and equally on an image accepted early
with a metric in (30, 50]. -/
theorem gate_accepts_first_over_30_and_warns_iff_final_le_50 (vs : ℕ → ℚ) :
    finalVariance vs =
      (if 30 < vs 0 then vs 0 else if 30 < vs 1 then vs 1 else vs 2) ∧
      (lowVarianceWarning vs = true ↔ finalVariance vs ≤ 50) := by
  constructor
  · simp only [finalVariance, gateLoopAux]
    split
    · rfl
    · split
      · rfl
      · split <;> norm_num
  · simp [lowVarianceWarning]

/-! ## Expression tree grammar

One constructor per Go node type implementing the `ColorFunc` interface.
`float64` fields are modelled as real numbers. -/

inductive ColorFunc : Type where
  | Constant (r g b : ℝ) : ColorFunc
  | VariableX : ColorFunc
  | VariableY : ColorFunc
  | Sin (phase freq : ℝ) (sub : ColorFunc) : ColorFunc
  | Product (left right : ColorFunc) : ColorFunc
  | Mix (w : ℝ) (left right : ColorFunc) : ColorFunc
  | Well (sub : ColorFunc) : ColorFunc
  | FractalNoise (scale : ℝ) (sub : ColorFunc) : ColorFunc

/-- Evaluation `Eval x y` of each node type, translated clause by clause from the Go
`Eval` methods.  `math.Pow(v, 2)` is `v ^ 2`. -/
noncomputable def Eval : ColorFunc → ℝ → ℝ → ℝ × ℝ × ℝ
  | .Constant r g b, _, _ => (r, g, b)
  | .VariableX, x, _ => (x, x, x)
  | .VariableY, _, y => (y, y, y)
  | .Sin phase freq sub, x, y =>
    let e := Eval sub x y
    (Real.sin (phase + freq * e.1), Real.sin (phase + freq * e.2.1),
     Real.sin (phase + freq * e.2.2))
  | .Product left right, x, y =>
    let e1 := Eval left x y
    let e2 := Eval right x y
    (e1.1 * e2.1, e1.2.1 * e2.2.1, e1.2.2 * e2.2.2)
  | .Mix w left right, x, y =>
    let e1 := Eval left x y
    let e2 := Eval right x y
    (w * e1.1 + (1 - w) * e2.1, w * e1.2.1 + (1 - w) * e2.2.1,
     w * e1.2.2 + (1 - w) * e2.2.2)
  | .Well sub, x, y =>
    let e := Eval sub x y
    (1 - 2 / (1 + e.1 ^ 2), 1 - 2 / (1 + e.2.1 ^ 2), 1 - 2 / (1 + e.2.2 ^ 2))
  | .FractalNoise scale sub, x, y =>
    let e := Eval sub (x * scale) (y * scale)
    (0.5 * (Real.sin (5 * e.1) + Real.cos (5 * e.1)),
     0.5 * (Real.sin (5 * e.2.1) + Real.cos (5 * e.2.1)),
     0.5 * (Real.sin (5 * e.2.2) + Real.cos (5 * e.2.2)))

/-- C4: `Well`'s evaluation applies `v ↦ 1 - 2/(1+v²)` component-wise to
the child's output at the same point, and `FractalNoise`'s evaluation
evaluates its child at `(x·scale, y·scale)` and applies
`v ↦ 0.5·(sin 5v + cos 5v)` component-wise. -/
theorem well_and_fractalNoise_eval (sub : ColorFunc) (scale x y : ℝ) :
    Eval (.Well sub) x y =
      (1 - 2 / (1 + (Eval sub x y).1 ^ 2),
       1 - 2 / (1 + (Eval sub x y).2.1 ^ 2),
       1 - 2 / (1 + (Eval sub x y).2.2 ^ 2)) ∧
    Eval (.FractalNoise scale sub) x y =
      (0.5 * (Real.sin (5 * (Eval sub (x * scale) (y * scale)).1) +
              Real.cos (5 * (Eval sub (x * scale) (y * scale)).1)),
       0.5 * (Real.sin (5 * (Eval sub (x * scale) (y * scale)).2.1) +
              Real.cos (5 * (Eval sub (x * scale) (y * scale)).2.1)),
       0.5 * (Real.sin (5 * (Eval sub (x * scale) (y * scale)).2.2) +
              Real.cos (5 * (Eval sub (x * scale) (y * scale)).2.2))) :=
  ⟨rfl, rfl⟩

/-! ## Absence of division by zero (C7)

The only division during evaluation is `Well`'s `2 / (1 + v²)`.
`evalDenomsOK` collects, for every `Well` node reached during the
evaluation of a tree at `(x, y)`, the condition that its denominator is
at least 1 (hence nonzero); the coordinates are threaded exactly as
evaluation threads them (`FractalNoise` rescales them for its child). -/

def evalDenomsOK : ColorFunc → ℝ → ℝ → Prop
  | .Constant _ _ _, _, _ => True
  | .VariableX, _, _ => True
  | .VariableY, _, _ => True
  | .Sin _ _ sub, x, y => evalDenomsOK sub x y
  | .Product left right, x, y => evalDenomsOK left x y ∧ evalDenomsOK right x y
  | .Mix _ left right, x, y => evalDenomsOK left x y ∧ evalDenomsOK right x y
  | .Well sub, x, y =>
    evalDenomsOK sub x y ∧
      1 ≤ 1 + (Eval sub x y).1 ^ 2 ∧
      1 ≤ 1 + (Eval sub x y).2.1 ^ 2 ∧
      1 ≤ 1 + (Eval sub x y).2.2 ^ 2
  | .FractalNoise scale sub, x, y => evalDenomsOK sub (x * scale) (y * scale)

/-- C7: for every tree (in particular every tree `Generate` can build)
and all real coordinates, every `Well` denominator `1 + v²` encountered
during evaluation is at least 1, so no division by zero occurs and
evaluation is a total function on the reals. -/
theorem eval_no_division_by_zero (t : ColorFunc) : ∀ x y : ℝ, evalDenomsOK t x y := by
  induction t with
  | Constant r g b => intro x y; trivial
  | VariableX => intro x y; trivial
  | VariableY => intro x y; trivial
  | Sin phase freq sub ih => intro x y; exact ih x y
  | Product left right ihl ihr => intro x y; exact ⟨ihl x y, ihr x y⟩
  | Mix w left right ihl ihr => intro x y; exact ⟨ihl x y, ihr x y⟩
  | Well sub ih =>
    intro x y
    refine ⟨ih x y, ?_, ?_, ?_⟩ <;> nlinarith [sq_nonneg (Eval sub x y).1,
      sq_nonneg (Eval sub x y).2.1, sq_nonneg (Eval sub x y).2.2]
  | FractalNoise scale sub ih => intro x y; exact ih (x * scale) (y * scale)

/-! ## Per-pixel conversion pipeline

`CreateImage`'s inner loop maps a pixel `(px, py)` to sample coordinates,
evaluates the tree, clamps each channel with `normalize`, and converts
`128 + channel*127` to a `uint8`.  Go's float-to-integer conversion
truncates toward zero; it is modelled on `ℝ` by `truncToZero`. -/

/-- Saturating clamp to `[-1, 1]`, translated from the source's
`normalize`. -/
noncomputable def normalize (v : ℝ) : ℝ :=
  if v < -1 then -1 else if 1 < v then 1 else v

/-- Go's `uint8(v)` conversion for a `float64` `v`: the fractional part is
discarded (truncation toward zero). -/
noncomputable def truncToZero (v : ℝ) : ℤ := if 0 ≤ v then ⌊v⌋ else ⌈v⌉

/-- The stored byte of one colour channel: `uint8(128 + c*127)`. -/
noncomputable def channelByte (c : ℝ) : ℤ := truncToZero (128 + c * 127)

/-- The sample coordinate of pixel index `p`:
`2*float64(p)/float64(size) - 1`. -/
noncomputable def sampleCoord (size p : ℕ) : ℝ := 2 * (p : ℕ) / (size : ℕ) - 1

/-- The RGBA quadruple `CreateImage` stores at `(px, py)`, as the source
computes it: sample coordinates, `Eval`, `normalize` per channel,
`uint8(128 + c*127)` per channel, alpha 255. -/
noncomputable def codePixel (t : ColorFunc) (size px py : ℕ) : ℤ × ℤ × ℤ × ℤ :=
  let x := sampleCoord size px
  let y := sampleCoord size py
  let e := Eval t x y
  (channelByte (normalize e.1), channelByte (normalize e.2.1),
   channelByte (normalize e.2.2), 255)

/-- Modelled from the spec: the conversion of a clamped channel to its
8-bit value by *rounding*, `round(128 + channel*127)`, as the claim
states it. -/
noncomputable def roundChannelByte (c : ℝ) : ℤ := round (128 + c * 127)

/-- Modelled from the spec (with the conversion amended from rounding to
truncation): pixel `(px,py)` maps to `x = 2·px/size - 1`,
`y = 2·py/size - 1`, channels are saturated into `[-1,1]`, each byte is
the truncation of `128 + channel·127`, and alpha is 255. -/
noncomputable def specPixel (t : ColorFunc) (size px py : ℕ) : ℤ × ℤ × ℤ × ℤ :=
  let x : ℝ := 2 * (px : ℕ) / (size : ℕ) - 1
  let y : ℝ := 2 * (py : ℕ) / (size : ℕ) - 1
  let e := Eval t x y
  (truncToZero (128 + max (-1) (min 1 e.1) * 127),
   truncToZero (128 + max (-1) (min 1 e.2.1) * 127),
   truncToZero (128 + max (-1) (min 1 e.2.2) * 127), 255)

theorem normalize_eq_clamp (v : ℝ) : normalize v = max (-1) (min 1 v) := by
  unfold normalize
  rcases lt_or_le v (-1) with h | h
  · rw [if_pos h, min_eq_right (by linarith), max_eq_left (by linarith)]
  · rw [if_neg (by linarith)]
    rcases lt_or_le 1 v with h1 | h1
    · rw [if_pos h1, min_eq_left (by linarith)]
      norm_num
    · rw [if_neg (by linarith), min_eq_right h1, max_eq_right (by linarith)]

/-- C2 (counterexample): at seed tree `VariableX`, `size = 8`,
`px = 6`, `py = 0`, the channel value is exactly `1/2`, so
`128 + c·127 = 191.5`; the code's conversion stores 191 (truncation),
while the claim's `round(128 + c·127)` is 192. -/
theorem pixel_byte_truncates_not_rounds :
    (codePixel .VariableX 8 6 0).1 = 191 ∧
      roundChannelByte
        (normalize (Eval .VariableX (sampleCoord 8 6) (sampleCoord 8 0)).1) = 192 := by
  have hx : sampleCoord 8 6 = 1 / 2 := by unfold sampleCoord; norm_num
  have hn : normalize (1 / 2 : ℝ) = 1 / 2 := by
    rw [normalize_eq_clamp]; norm_num
  constructor
  · show channelByte (normalize (Eval .VariableX (sampleCoord 8 6) (sampleCoord 8 0)).1) = 191
    rw [show Eval .VariableX (sampleCoord 8 6) (sampleCoord 8 0) =
          (sampleCoord 8 6, sampleCoord 8 6, sampleCoord 8 6) from rfl]
    rw [hx]
    show channelByte (normalize (1 / 2)) = 191
    rw [hn]
    unfold channelByte truncToZero
    rw [if_pos (by norm_num)]
    rw [Int.floor_eq_iff]
    norm_num
  · rw [show Eval .VariableX (sampleCoord 8 6) (sampleCoord 8 0) =
          (sampleCoord 8 6, sampleCoord 8 6, sampleCoord 8 6) from rfl]
    rw [hx, hn]
    unfold roundChannelByte
    rw [round_eq]
    rw [Int.floor_eq_iff]
    norm_num

/-- C2 (amended): for every tree and pixel, the stored quadruple equals
the spec's per-pixel mapping with the conversion amended from
`round(128 + c·127)` to truncation toward zero: sample point
`x = 2·px/size - 1`, `y = 2·py/size - 1`, channels saturated into
`[-1,1]`, and alpha always 255. -/
theorem codePixel_eq_specPixel (t : ColorFunc) (size px py : ℕ) :
    codePixel t size px py = specPixel t size px py := by
  simp only [codePixel, specPixel, sampleCoord, channelByte, normalize_eq_clamp]

theorem normalize_mem_Icc (v : ℝ) : -1 ≤ normalize v ∧ normalize v ≤ 1 := by
  rw [normalize_eq_clamp]
  constructor
  · exact le_max_left _ _
  · rcases le_total 1 v with h | h
    · rw [min_eq_left h]; norm_num
    · rw [min_eq_right h]
      exact max_le (by norm_num) h

theorem channelByte_bounds (c : ℝ) (h1 : -1 ≤ c) (h2 : c ≤ 1) :
    1 ≤ channelByte c ∧ channelByte c ≤ 255 := by
  unfold channelByte truncToZero
  have hlo : (1 : ℝ) ≤ 128 + c * 127 := by nlinarith
  have hhi : (128 : ℝ) + c * 127 ≤ 255 := by nlinarith
  rw [if_pos (by linarith)]
  constructor
  · exact_mod_cast Int.le_floor.mpr (by exact_mod_cast hlo)
  · have := Int.floor_le (128 + c * 127)
    have : ((⌊128 + c * 127⌋ : ℤ) : ℝ) ≤ 255 := le_trans (Int.floor_le _) hhi
    exact_mod_cast this

/-- C10: every stored channel byte lies in `[1, 255]` — the byte 0 is
never produced, since the channel is clamped to `[-1,1]` first and
`128 + c·127` then lies in `[1, 255]` — and the alpha byte is exactly
255. -/
theorem codePixel_bytes_in_range (t : ColorFunc) (size px py : ℕ) :
    1 ≤ (codePixel t size px py).1 ∧ (codePixel t size px py).1 ≤ 255 ∧
    1 ≤ (codePixel t size px py).2.1 ∧ (codePixel t size px py).2.1 ≤ 255 ∧
    1 ≤ (codePixel t size px py).2.2.1 ∧ (codePixel t size px py).2.2.1 ≤ 255 ∧
    (codePixel t size px py).2.2.2 = 255 := by
  obtain ⟨a1, a2⟩ := normalize_mem_Icc (Eval t (sampleCoord size px) (sampleCoord size py)).1
  obtain ⟨b1, b2⟩ := normalize_mem_Icc (Eval t (sampleCoord size px) (sampleCoord size py)).2.1
  obtain ⟨c1, c2⟩ := normalize_mem_Icc (Eval t (sampleCoord size px) (sampleCoord size py)).2.2
  obtain ⟨ha1, ha2⟩ := channelByte_bounds _ a1 a2
  obtain ⟨hb1, hb2⟩ := channelByte_bounds _ b1 b2
  obtain ⟨hc1, hc2⟩ := channelByte_bounds _ c1 c2
  exact ⟨ha1, ha2, hb1, hb2, hc1, hc2, rfl⟩

/-! ## Random tree builder (C5, C6)

`math/rand`'s global source is modelled as a stream of draw results with
a cursor: each call to `Float64` or `Intn` consumes one position.  The
`Float64` results are the rationals of the stream (the program only
compares and affinely transforms them); `Intn n` reduces the stream's
natural modulo `n`.  Go's short-circuit `&&` is respected: the Bernoulli
float is drawn only when `minDepth <= 0`. -/

structure Rng where
  draws : ℕ → ℕ × ℚ
  idx : ℕ

def randIntn (n : ℕ) (r : Rng) : ℕ × Rng :=
  ((r.draws r.idx).1 % n, ⟨r.draws, r.idx + 1⟩)

def randFloat (r : Rng) : ℚ × Rng :=
  ((r.draws r.idx).2, ⟨r.draws, r.idx + 1⟩)

/-- The leaf branch of `Generate`: `rand.Intn(3)` selects `VariableX`,
`VariableY`, or a `Constant` whose channels are `rand.Float64()*2 - 1`. -/
noncomputable def genLeaf (r : Rng) : ColorFunc × Rng :=
  let kr := randIntn 3 r
  if kr.1 = 0 then (.VariableX, kr.2)
  else if kr.1 = 1 then (.VariableY, kr.2)
  else
    let f1 := randFloat kr.2
    let f2 := randFloat f1.2
    let f3 := randFloat f2.2
    (.Constant ((f1.1 : ℝ) * 2 - 1) ((f2.1 : ℝ) * 2 - 1) ((f3.1 : ℝ) * 2 - 1),
     f3.2)

/-- The interior branch of `Generate`, parameterized by the recursive
call `child = Generate (minDepth-1) (maxDepth-1)`: `rand.Intn(4)`
selects `Sin`, `Mix`, `Product` or `FractalNoise`, drawing parameters
and children in the source's evaluation order. -/
noncomputable def genNode (child : Rng → ColorFunc × Rng) (r : Rng) :
    ColorFunc × Rng :=
  let kr := randIntn 4 r
  if kr.1 = 0 then
    let p := randFloat kr.2
    let f := randFloat p.2
    let s := child f.2
    (.Sin ((p.1 : ℝ) * 2 * Real.pi) (0.5 + (f.1 : ℝ) * 3.0) s.1, s.2)
  else if kr.1 = 1 then
    let w := randFloat kr.2
    let l := child w.2
    let rr := child l.2
    (.Mix (w.1 : ℝ) l.1 rr.1, rr.2)
  else if kr.1 = 2 then
    let l := child kr.2
    let rr := child l.2
    (.Product l.1 rr.1, rr.2)
  else
    let sc := randFloat kr.2
    let s := child sc.2
    (.FractalNoise (0.5 + (sc.1 : ℝ) * 2.0) s.1, s.2)

/-- The builder `Generate(minDepth, maxDepth)` from the source.  The claims restrict
to `maxDepth ≥ 0`, so `maxDepth` is a natural number; the `maxDepth == 0`
test and the `maxDepth - 1` recursion then agree with the Go `int`
arithmetic.  `minDepth` stays an integer (it is decremented below 0). -/
noncomputable def Generate : ℤ → ℕ → Rng → ColorFunc × Rng
  | _, 0, r => genLeaf r
  | minD, m + 1, r =>
    if minD ≤ 0 then
      if (randFloat r).1 < 1 / 5 then genLeaf (randFloat r).2
      else genNode (fun r' => Generate (minD - 1) m r') (randFloat r).2
    else genNode (fun r' => Generate (minD - 1) m r') r

/-- Length of the longest root-to-leaf path (edges). -/
def depth : ColorFunc → ℕ
  | .Constant _ _ _ => 0
  | .VariableX => 0
  | .VariableY => 0
  | .Sin _ _ sub => depth sub + 1
  | .Product left right => max (depth left) (depth right) + 1
  | .Mix _ left right => max (depth left) (depth right) + 1
  | .Well sub => depth sub + 1
  | .FractalNoise _ sub => depth sub + 1

/-- Length of the shortest root-to-leaf path (edges). -/
def minPath : ColorFunc → ℕ
  | .Constant _ _ _ => 0
  | .VariableX => 0
  | .VariableY => 0
  | .Sin _ _ sub => minPath sub + 1
  | .Product left right => min (minPath left) (minPath right) + 1
  | .Mix _ left right => min (minPath left) (minPath right) + 1
  | .Well sub => minPath sub + 1
  | .FractalNoise _ sub => minPath sub + 1

/-- Whether the root is one of the three leaf node types. -/
def isLeafNode : ColorFunc → Bool
  | .Constant _ _ _ => true
  | .VariableX => true
  | .VariableY => true
  | _ => false

theorem depth_genLeaf (r : Rng) : depth (genLeaf r).1 = 0 := by
  simp only [genLeaf]
  split_ifs <;> rfl

theorem minPath_genLeaf (r : Rng) : minPath (genLeaf r).1 = 0 := by
  simp only [genLeaf]
  split_ifs <;> rfl

theorem isLeafNode_genLeaf (r : Rng) : isLeafNode (genLeaf r).1 = true := by
  simp only [genLeaf]
  split_ifs <;> rfl

theorem isLeafNode_genNode (child : Rng → ColorFunc × Rng) (r : Rng) :
    isLeafNode (genNode child r).1 = false := by
  simp only [genNode]
  split_ifs <;> rfl

theorem depth_genNode (child : Rng → ColorFunc × Rng) (r : Rng) (m : ℕ)
    (h : ∀ r' : Rng, depth (child r').1 ≤ m) :
    depth (genNode child r).1 ≤ m + 1 := by
  have k1 : ∀ rng : Rng, depth (child rng).1 + 1 ≤ m + 1 :=
    fun rng => Nat.succ_le_succ (h rng)
  have k2 : ∀ r1 r2 : Rng,
      max (depth (child r1).1) (depth (child r2).1) + 1 ≤ m + 1 :=
    fun r1 r2 => Nat.succ_le_succ (max_le (h r1) (h r2))
  simp only [genNode]
  split_ifs <;> simp only [depth] <;> first | exact k1 _ | exact k2 _ _

theorem minPath_genNode (child : Rng → ColorFunc × Rng) (r : Rng) (k : ℤ)
    (h : ∀ r' : Rng, k ≤ (minPath (child r').1 : ℤ)) :
    k + 1 ≤ (minPath (genNode child r).1 : ℤ) := by
  have k1 : ∀ rng : Rng, k + 1 ≤ ((minPath (child rng).1 + 1 : ℕ) : ℤ) := by
    intro rng
    push_cast
    linarith [h rng]
  have k2 : ∀ r1 r2 : Rng,
      k + 1 ≤ ((min (minPath (child r1).1) (minPath (child r2).1) + 1 : ℕ) : ℤ) := by
    intro r1 r2
    have h1 := h r1
    have h2 := h r2
    push_cast
    omega
  simp only [genNode]
  split_ifs <;> simp only [minPath] <;> first | exact k1 _ | exact k2 _ _

/-- C5: for every `minDepth`, every `maxDepth ≥ 0` and every random
stream, `Generate` terminates (it is a total function, `maxDepth`
strictly decreasing into every recursive call) and every root-to-leaf
path of the returned tree has length at most `maxDepth`. -/
theorem generate_depth_le (maxD : ℕ) :
    ∀ (minD : ℤ) (r : Rng), depth (Generate minD maxD r).1 ≤ maxD := by
  induction maxD with
  | zero =>
    intro minD r
    show depth (Generate minD 0 r).1 ≤ 0
    rw [show Generate minD 0 r = genLeaf r from rfl, depth_genLeaf]
  | succ m ih =>
    intro minD r
    show depth (Generate minD (m + 1) r).1 ≤ m + 1
    rw [Generate]
    split_ifs with h1 h2
    · rw [depth_genLeaf]
      exact Nat.zero_le _
    · exact depth_genNode _ _ m (fun r' => ih _ r')
    · exact depth_genNode _ _ m (fun r' => ih _ r')

theorem generate_minPath_ge (maxD : ℕ) :
    ∀ (minD : ℤ) (r : Rng),
      min minD (maxD : ℤ) ≤ (minPath (Generate minD maxD r).1 : ℤ) := by
  induction maxD with
  | zero =>
    intro minD r
    calc min minD ((0 : ℕ) : ℤ) ≤ 0 := by simp
    _ ≤ (minPath (Generate minD 0 r).1 : ℤ) := Int.ofNat_nonneg _
  | succ m ih =>
    intro minD r
    show min minD ((m + 1 : ℕ) : ℤ) ≤ (minPath (Generate minD (m + 1) r).1 : ℤ)
    rw [Generate]
    split_ifs with h1 h2
    · calc min minD ((m + 1 : ℕ) : ℤ) ≤ minD := min_le_left _ _
      _ ≤ 0 := h1
      _ ≤ _ := Int.ofNat_nonneg _
    · have := minPath_genNode (fun r' => Generate (minD - 1) m r')
        (randFloat r).2 (min (minD - 1) (m : ℤ)) (fun r' => ih (minD - 1) r')
      calc min minD ((m + 1 : ℕ) : ℤ) = min (minD - 1) (m : ℤ) + 1 := by
            push_cast; omega
      _ ≤ _ := this
    · have := minPath_genNode (fun r' => Generate (minD - 1) m r')
        r (min (minD - 1) (m : ℤ)) (fun r' => ih (minD - 1) r')
      calc min minD ((m + 1 : ℕ) : ℤ) = min (minD - 1) (m : ℤ) + 1 := by
            push_cast; omega
      _ ≤ _ := this

theorem generate_leaf_cond (minD : ℤ) (m : ℕ) (r : Rng) :
    isLeafNode (Generate minD (m + 1) r).1 =
      (decide (minD ≤ 0) && decide ((randFloat r).1 < 1 / 5)) := by
  rw [Generate]
  split_ifs with h1 h2
  · simp [isLeafNode_genLeaf, h1]
    rwa [one_div] at h2
  · simp [isLeafNode_genNode, h1]
    rw [not_lt, one_div] at h2
    exact h2
  · simp [isLeafNode_genNode, h1]

/-- C6: every root-to-leaf path of `Generate minDepth maxDepth`'s result
has length at least `min minDepth maxDepth`, and at a positive depth
budget the root is a leaf exactly when `minDepth ≤ 0` and the Bernoulli
draw (`rand.Float64() < 0.2`) succeeds; at budget 0 a leaf is always
produced. -/
theorem generate_minPath_ge_and_leaf_only_on_budget :
    (∀ (minD : ℤ) (maxD : ℕ) (r : Rng),
        min minD (maxD : ℤ) ≤ (minPath (Generate minD maxD r).1 : ℤ)) ∧
    (∀ (minD : ℤ) (m : ℕ) (r : Rng),
        isLeafNode (Generate minD (m + 1) r).1 =
          (decide (minD ≤ 0) && decide ((randFloat r).1 < 1 / 5))) ∧
    (∀ (minD : ℤ) (r : Rng), isLeafNode (Generate minD 0 r).1 = true) :=
  ⟨fun minD maxD r => generate_minPath_ge maxD minD r,
   generate_leaf_cond,
   fun _ r => isLeafNode_genLeaf r⟩

/-! ## Diversity metric (C8)

An image is modelled as a map from pixel coordinates to the stored
8-bit `(R, G, B)` bytes (naturals; `calculateColorVariance` reads them
back with `float64(c.R)` etc.).  The source accumulates the six totals
with `+=` in a row-major double loop; each total is modelled as that
double fold. -/

def Img : Type := ℕ → ℕ → ℕ × ℕ × ℕ

/-- One accumulated total of the double loop in
`calculateColorVariance`: `for py { for px { acc += f px py } }`. -/
noncomputable def chanTotal (size : ℕ) (f : ℕ → ℕ → ℝ) : ℝ :=
  (List.range size).foldl
    (fun acc py => (List.range size).foldl (fun acc2 px => acc2 + f px py) acc) 0

/-- The metric `calculateColorVariance` from the source: per-channel totals and
totals of squares over all pixels, then
`sqrt((rSq/n - rMean²) + (gSq/n - gMean²) + (bSq/n - bMean²))` with
`n = float64(size*size)` and `mean = total/n`. -/
noncomputable def calculateColorVariance (img : Img) (size : ℕ) : ℝ :=
  let pixelCount : ℝ := ((size * size : ℕ) : ℝ)
  let rTotal := chanTotal size fun px py => ((img px py).1 : ℝ)
  let gTotal := chanTotal size fun px py => ((img px py).2.1 : ℝ)
  let bTotal := chanTotal size fun px py => ((img px py).2.2 : ℝ)
  let rSq := chanTotal size fun px py => ((img px py).1 : ℝ) * ((img px py).1 : ℝ)
  let gSq := chanTotal size fun px py => ((img px py).2.1 : ℝ) * ((img px py).2.1 : ℝ)
  let bSq := chanTotal size fun px py => ((img px py).2.2 : ℝ) * ((img px py).2.2 : ℝ)
  let rMean := rTotal / pixelCount
  let gMean := gTotal / pixelCount
  let bMean := bTotal / pixelCount
  Real.sqrt ((rSq / pixelCount - rMean * rMean) + (gSq / pixelCount - gMean * gMean) +
    (bSq / pixelCount - bMean * bMean))

/-- The population mean of `f` over the `size × size` pixel grid, as the
spec's `E[·]`. -/
noncomputable def chanExp (size : ℕ) (f : ℕ → ℕ → ℝ) : ℝ :=
  (∑ py ∈ Finset.range size, ∑ px ∈ Finset.range size, f px py) /
    ((size * size : ℕ) : ℝ)

theorem foldl_add_eq_sum {α : Type} (l : List α) (g : α → ℝ) :
    ∀ init : ℝ, l.foldl (fun a x => a + g x) init = init + (l.map g).sum := by
  induction l with
  | nil => intro init; simp
  | cons x xs ih =>
    intro init
    rw [List.foldl_cons, ih (init + g x), List.map_cons, List.sum_cons]
    ring

theorem range_map_sum_eq (n : ℕ) (g : ℕ → ℝ) :
    ((List.range n).map g).sum = ∑ i ∈ Finset.range n, g i := by
  induction n with
  | zero => simp
  | succ m ih =>
    rw [List.range_succ, List.map_append, List.sum_append, Finset.sum_range_succ, ih]
    simp

theorem chanTotal_eq_sum (size : ℕ) (f : ℕ → ℕ → ℝ) :
    chanTotal size f = ∑ py ∈ Finset.range size, ∑ px ∈ Finset.range size, f px py := by
  unfold chanTotal
  have inner : ∀ (acc : ℝ) (py : ℕ),
      (List.range size).foldl (fun acc2 px => acc2 + f px py) acc =
        acc + ∑ px ∈ Finset.range size, f px py := by
    intro acc py
    rw [foldl_add_eq_sum, range_map_sum_eq]
  simp only [inner]
  rw [foldl_add_eq_sum, range_map_sum_eq]
  ring

/-- C8: `calculateColorVariance` is exactly
`sqrt((E[R²]-E[R]²) + (E[G²]-E[G]²) + (E[B²]-E[B]²))`, the means taken
over the stored 8-bit channel values of all `size·size` pixels. -/
theorem calculateColorVariance_eq_joint_stddev (img : Img) (size : ℕ) :
    calculateColorVariance img size =
      Real.sqrt
        ((chanExp size (fun px py => ((img px py).1 : ℝ) * ((img px py).1 : ℝ)) -
            (chanExp size fun px py => ((img px py).1 : ℝ)) ^ 2) +
         (chanExp size (fun px py => ((img px py).2.1 : ℝ) * ((img px py).2.1 : ℝ)) -
            (chanExp size fun px py => ((img px py).2.1 : ℝ)) ^ 2) +
         (chanExp size (fun px py => ((img px py).2.2 : ℝ) * ((img px py).2.2 : ℝ)) -
            (chanExp size fun px py => ((img px py).2.2 : ℝ)) ^ 2)) := by
  simp only [calculateColorVariance, chanExp, chanTotal_eq_sum]
  congr 1
  ring

/-! ## Parallel rasterization (C9)

`CreateImage` splits the `size` rows into one contiguous band per
worker: worker `w` handles rows `[w·rpw, (w+1)·rpw)` with
`rpw = size / numWorkers`, and the last worker's band ends at `size`
instead.  Each worker writes `some` pixel value into a shared buffer
(`Option`-valued, `none` = never written); since the value written for a
pixel is a pure function of its coordinates, the buffer after all
workers ran is modelled by folding the band writes in worker order. -/

def bandStart (size numWorkers w : ℕ) : ℕ := w * (size / numWorkers)

def bandStop (size numWorkers w : ℕ) : ℕ :=
  if w = numWorkers - 1 then size else (w + 1) * (size / numWorkers)

def inBand (size numWorkers w py : ℕ) : Prop :=
  bandStart size numWorkers w ≤ py ∧ py < bandStop size numWorkers w

instance (size numWorkers w py : ℕ) : Decidable (inBand size numWorkers w py) := by
  unfold inBand
  infer_instance

/-- The writes of one worker: every pixel `(px, py)` with `py` in
`[lo, hi)` and `px < size` receives its value. -/
def writeBand {P : Type} (f : ℕ → ℕ → P) (size lo hi : ℕ)
    (buf : ℕ × ℕ → Option P) : ℕ × ℕ → Option P :=
  fun q => if lo ≤ q.2 ∧ q.2 < hi ∧ q.1 < size then some (f q.1 q.2) else buf q

/-- The pixel buffer after all `numWorkers` band workers completed,
starting from an unwritten buffer. -/
def raster {P : Type} (f : ℕ → ℕ → P) (size numWorkers : ℕ) : ℕ × ℕ → Option P :=
  (List.range numWorkers).foldl
    (fun buf w =>
      writeBand f size (bandStart size numWorkers w) (bandStop size numWorkers w) buf)
    (fun _ => none)

theorem raster_foldl_apply {P : Type} (f : ℕ → ℕ → P) (size N : ℕ)
    (l : List ℕ) :
    ∀ (buf : ℕ × ℕ → Option P) (q : ℕ × ℕ),
      l.foldl
          (fun b w => writeBand f size (bandStart size N w) (bandStop size N w) b)
          buf q =
        if ∃ w ∈ l, inBand size N w q.2 ∧ q.1 < size then some (f q.1 q.2)
        else buf q := by
  induction l with
  | nil => intro buf q; simp
  | cons a l ih =>
    intro buf q
    rw [List.foldl_cons, ih]
    by_cases hl : ∃ w ∈ l, inBand size N w q.2 ∧ q.1 < size
    · obtain ⟨w, hwl, hw⟩ := hl
      rw [if_pos ⟨w, hwl, hw⟩, if_pos ⟨w, List.mem_cons_of_mem a hwl, hw⟩]
    · rw [if_neg hl]
      unfold writeBand
      by_cases ha : inBand size N a q.2 ∧ q.1 < size
      · rw [if_pos ⟨ha.1.1, ha.1.2, ha.2⟩,
          if_pos ⟨a, List.mem_cons_self a l, ha⟩]
      · rw [if_neg fun h => ha ⟨⟨h.1, h.2.1⟩, h.2.2⟩,
          if_neg ?_]
        intro h
        obtain ⟨w, hwm, hw⟩ := h
        rcases List.mem_cons.mp hwm with rfl | hwl
        · exact ha hw
        · exact hl ⟨w, hwl, hw⟩

theorem band_cover (size N py : ℕ) (hN : 1 ≤ N) (hpy : py < size) :
    ∃ w, w < N ∧ inBand size N w py := by
  by_cases hc : py < (N - 1) * (size / N)
  · have hq : 0 < size / N := by
      rcases Nat.eq_zero_or_pos (size / N) with h0 | h0
      · rw [h0, Nat.mul_zero] at hc; omega
      · exact h0
    refine ⟨py / (size / N), ?_, ?_, ?_⟩
    · have hlt : py / (size / N) < N - 1 :=
        (Nat.div_lt_iff_lt_mul hq).mpr hc
      omega
    · exact Nat.div_mul_le_self py (size / N)
    · have hne : py / (size / N) ≠ N - 1 := by
        have := (Nat.div_lt_iff_lt_mul hq).mpr hc
        omega
      rw [bandStop, if_neg hne]
      have e1 := Nat.div_add_mod py (size / N)
      have hmod := Nat.mod_lt py hq
      have : py / (size / N) * (size / N) = size / N * (py / (size / N)) :=
        Nat.mul_comm _ _
      rw [Nat.add_mul, Nat.one_mul]
      linarith
  · refine ⟨N - 1, by omega, by rw [bandStart]; omega, ?_⟩
    rw [bandStop, if_pos rfl]
    exact hpy

theorem band_disjoint_aux (size N w1 w2 py : ℕ) (h2 : w2 < N) (hlt : w1 < w2)
    (b1 : inBand size N w1 py) (b2 : inBand size N w2 py) : False := by
  obtain ⟨s1, e1⟩ := b1
  obtain ⟨s2, _⟩ := b2
  rw [bandStart] at s2
  rw [bandStop, if_neg (by omega : w1 ≠ N - 1)] at e1
  have hle : (w1 + 1) * (size / N) ≤ w2 * (size / N) :=
    Nat.mul_le_mul_right _ (by omega)
  omega

theorem band_disjoint (size N w1 w2 py : ℕ) (h1 : w1 < N) (h2 : w2 < N)
    (b1 : inBand size N w1 py) (b2 : inBand size N w2 py) : w1 = w2 := by
  rcases Nat.lt_trichotomy w1 w2 with h | h | h
  · exact absurd (band_disjoint_aux size N w1 w2 py h2 h b1 b2) not_false
  · exact h
  · exact absurd (band_disjoint_aux size N w2 w1 py h1 h b2 b1) not_false

theorem raster_value_eq {P : Type} (f : ℕ → ℕ → P)
    (size N px py : ℕ) (hN : 1 ≤ N) (hpx : px < size) (hpy : py < size) :
    (∃! w, w < N ∧ inBand size N w py) ∧
    raster f size N (px, py) = some (f px py) ∧
    raster f size N (px, py) = raster f size 1 (px, py) := by
  obtain ⟨w, hw, hband⟩ := band_cover size N py hN hpy
  have hvalN : raster f size N (px, py) = some (f px py) := by
    rw [raster, raster_foldl_apply,
      if_pos ⟨w, List.mem_range.mpr hw, hband, hpx⟩]
  have hval1 : raster f size 1 (px, py) = some (f px py) := by
    obtain ⟨w1, hw1, hband1⟩ := band_cover size 1 py le_rfl hpy
    rw [raster, raster_foldl_apply,
      if_pos ⟨w1, List.mem_range.mpr hw1, hband1, hpx⟩]
  refine ⟨⟨w, ⟨hw, hband⟩, ?_⟩, hvalN, by rw [hvalN, hval1]⟩
  intro y hy
  exact band_disjoint size N y w py hy.1 hw hy.2 hband

/-- C9: for a fixed expression tree, `numWorkers ≥ 1` and a pixel inside
the image, the row-band partition assigns the pixel's row to exactly one
worker, the buffer after all workers ran holds exactly the pure
per-pixel value of the tree at that pixel's coordinates, and the
`numWorkers`-worker raster is pixel-identical to the 1-worker raster. -/
theorem raster_workers_irrelevant (t : ColorFunc) (size N px py : ℕ)
    (hN : 1 ≤ N) (hpx : px < size) (hpy : py < size) :
    (∃! w, w < N ∧ inBand size N w py) ∧
    raster (codePixel t size) size N (px, py) = some (codePixel t size px py) ∧
    raster (codePixel t size) size N (px, py) =
      raster (codePixel t size) size 1 (px, py) :=
  raster_value_eq (codePixel t size) size N px py hN hpx hpy

theorem raster_workers_irrelevant_witness :
    (∃! w, w < 3 ∧ inBand 5 3 w 4) ∧
    raster (codePixel .VariableX 5) 5 3 (2, 4) =
      some (codePixel .VariableX 5 2 4) ∧
    raster (codePixel .VariableX 5) 5 3 (2, 4) =
      raster (codePixel .VariableX 5) 5 1 (2, 4) :=
  raster_workers_irrelevant .VariableX 5 3 2 4
    (by norm_num) (by norm_num) (by norm_num)

end ArtGen
